import Mathlib

/-!
Verification of the color-formula optimizer script (scripts/optimize_color.py).

Shallow embedding conventions:
* Python floats are modelled as rationals.
* A Python dict used as a parameter state is an association list from key
  strings to rationals; lookup finds the first matching key.
* An image buffer of shape (3, h, w) is a structure with three channels,
  each a flat list of samples (the 2-d layout inside a channel is
  irrelevant to histogramming).
* Fallible operations (assert failures, KeyError, AttributeError) return
  an Except value.
* Calls to the global random generator are modelled by passing the drawn
  values as explicit arguments.
-/

set_option autoImplicit false

deriving instance DecidableEq for Except

namespace OptimizeColor

/-- A Python dict from parameter names to float values, as an association
list; the first binding of a key wins, mirroring dict key uniqueness. -/
abbrev ParamState := List (String × ℚ)

/-- A 3-channel image buffer; each channel is the flattened list of its
samples.  The script only ever reads bands 1..3, so the channel count is
fixed at three. -/
structure Image where
  r : List ℚ
  g : List ℚ
  b : List ℚ
  deriving DecidableEq

/-- Channel access arr[i] for i in range(3). -/
def Image.channel (img : Image) : ℕ → List ℚ
  | 0 => img.r
  | 1 => img.g
  | _ => img.b

/-- Python dict read state[k] (as an optional value: none is a KeyError,
or a failed membership test, depending on the caller). -/
def dictGet : ParamState → String → Option ℚ
  | [], _ => none
  | (k', v) :: rest, k => if k' = k then some v else dictGet rest k

/-- First-match insertion/update of a key in a dict, as Python dict
assignment behaves for an existing key. -/
def dictSet : ParamState → String → ℚ → ParamState
  | [], k, v => [(k, v)]
  | (k', v') :: rest, k, v =>
      if k' = k then (k, v) :: rest else (k', v') :: dictSet rest k v

/-- The class attribute keys = "gamma_red,gamma_green,gamma_blue,contrast".split(",") -/
def keys : List String := ["gamma_red", "gamma_green", "gamma_blue", "contrast"]

/-- Loop body of ColorEstimator.validate: iterate over keys, return False
as soon as a key is missing from the state; falling off the end of the
loop returns None (Python implicit return). -/
def validateLoop (st : ParamState) : List String → Option Bool
  | [] => none
  | k :: rest => if (dictGet st k).isSome then validateLoop st rest else some false

/-- ColorEstimator.validate applied to a given state.  Note the source
method never returns True: it returns False on a missing key and None
(falsy) when every key is present. -/
def validate (st : ParamState) : Option Bool :=
  validateLoop st keys

/-- Python truthiness of an Optional[bool]. -/
def truthy : Option Bool → Bool
  | none => false
  | some bv => bv

/-- The default parameter dict built in the constructor:
dict(gamma_red=1.0, gamma_green=1.0, gamma_blue=1.0, contrast=10). -/
def defaultParams : ParamState :=
  [("gamma_red", 1), ("gamma_green", 1), ("gamma_blue", 1), ("contrast", 10)]

inductive InitErr where
  | attributeError
  | valueError
  deriving DecidableEq

/-- The estimator object after construction: copies of the two buffers
plus the parameter state handed to the annealer base class. -/
structure Estimator where
  src : Image
  ref : Image
  state : ParamState
  deriving DecidableEq

/-- ColorEstimator.__init__(source, reference, state=None).  It stores
copies of the buffers; for a falsy state (None or an empty dict) it
installs the defaults; otherwise it evaluates self._validate(state).
No method named _validate exists on the class or its base (the in-class
validator is named validate), so the non-falsy-state path raises
AttributeError before anything else can happen. -/
def init (source reference : Image) (state : Option ParamState) : Except InitErr Estimator :=
  match state with
  | none => .ok ⟨source, reference, defaultParams⟩
  | some st =>
      if st.isEmpty then .ok ⟨source, reference, defaultParams⟩
      else .error .attributeError

/-- The constructor under the charitable reading in which the call
self._validate(state) is taken to mean the validate logic of the class
applied to the supplied state, with its result used for Python
truthiness as the source does. -/
def initIntended (source reference : Image) (state : Option ParamState) :
    Except InitErr Estimator :=
  match state with
  | none => .ok ⟨source, reference, defaultParams⟩
  | some st =>
      if st.isEmpty then .ok ⟨source, reference, defaultParams⟩
      else if truthy (validate st) then .ok ⟨source, reference, st⟩
      else .error .valueError

/-! ### The move proposal -/

inductive MoveErr where
  | keyError
  | fuelExhausted
  deriving DecidableEq

/-- The while invalid_key loop of ColorEstimator.move.  k is the
current candidate key; stream supplies the outcomes of any further
random.choice(self.keys) draws the loop performs; fuel bounds the
iteration count (the loop body either exits or consumes a draw).
Reading self.state[k] for an absent key is a KeyError. -/
def moveResolveKey (st : ParamState) : ℕ → String → List String → Except MoveErr String
  | 0, _, _ => .error .fuelExhausted
  | n + 1, k, stream =>
      if k = "bias" then
        match dictGet st "bias" with
        | none => .error .keyError
        | some v =>
            if v > 909 / 1000 then
              match stream with
              | [] => .error .fuelExhausted
              | k2 :: rest => moveResolveKey st n k2 rest
            else .ok k
      else .ok k

/-- ColorEstimator.move with the random draws made explicit: k is the
result of random.choice(self.keys), m the result of
random.choice((0.9, 1.1)), and stream any further key draws made inside
the guard loop.  On success the state has exactly the chosen key
rescaled by m. -/
def move (st : ParamState) (k : String) (m : ℚ) (stream : List String) :
    Except MoveErr ParamState :=
  match moveResolveKey st (stream.length + 1) k stream with
  | .error e => .error e
  | .ok k2 =>
      match dictGet st k2 with
      | none => .error .keyError
      | some v => .ok (dictSet st k2 (v * m))

/-! ### Descriptor formatting -/

/-- Rounding of 100 q to an integer, ties to even, modelling the
rounding that the Python fixed-point format specifier with two digits
performs on the (here exact) numeric value. -/
def round2 (q : ℚ) : ℤ :=
  let x := q * 100
  let f := ⌊x⌋
  if x - (f : ℚ) < 1 / 2 then f
  else if x - (f : ℚ) > 1 / 2 then f + 1
  else if f % 2 = 0 then f else f + 1

/-- Two-digit zero padding of the fractional part. -/
def pad2 (n : ℕ) : String :=
  if n < 10 then "0" ++ toString n else toString n

/-- Fixed-point rendering with two digits after the decimal point, the
model of the Python format specifier .2f on a parameter value. -/
def formatFixed2 (q : ℚ) : String :=
  let n := round2 q
  let sgn := if n < 0 then "-" else ""
  sgn ++ toString (n.natAbs / 100) ++ "." ++ pad2 (n.natAbs % 100)

/-- ColorEstimator.cmd(state): the str.format call reads the four keys
from the dict (KeyError, i.e. none, if one is absent) and interpolates
them, two digits each, into the fixed operation template. -/
def cmd (st : ParamState) : Option String := do
  let gr ← dictGet st "gamma_red"
  let gg ← dictGet st "gamma_green"
  let gb ← dictGet st "gamma_blue"
  let c ← dictGet st "contrast"
  pure ("gamma r " ++ formatFixed2 gr ++ ", gamma g " ++ formatFixed2 gg ++
    ", gamma b " ++ formatFixed2 gb ++ ", sigmoidal rgb " ++ formatFixed2 c ++ " 0.5")

/-- The descriptor string as the specification words it: gamma per
channel at two decimal digits, then a sigmoidal contrast operation at
two decimal digits with a fixed midpoint of 0.5. -/
def specDescriptorString (gr gg gb c : ℚ) : String :=
  "gamma r " ++ formatFixed2 gr ++ ", gamma g " ++ formatFixed2 gg ++
    ", gamma b " ++ formatFixed2 gb ++ ", sigmoidal rgb " ++ formatFixed2 c ++ " 0.5"

/-! ### Histogram distance -/

/-- Tolerance constant eps = 1e-6 of histogram_distance. -/
def eps : ℚ := 1 / 1000000

inductive HDErr where
  /-- numpy raises a ValueError reducing an empty array with min or max. -/
  | emptyValueError
  /-- One of the four range asserts on the inputs failed. -/
  | precondition
  /-- One of the two asserts on the normalized histogram sums failed. -/
  | internalAssert
  deriving DecidableEq

/-- arr.min() of a numpy array: none on an empty array, else the fold of
min over the elements. -/
def npMin : List ℚ → Option ℚ
  | [] => none
  | x :: rest => some (rest.foldl min x)

/-- arr.max() of a numpy array. -/
def npMax : List ℚ → Option ℚ
  | [] => none
  | x :: rest => some (rest.foldl max x)

/-- The four leading asserts of histogram_distance for one array: its
minimum must exceed 0 - eps and its maximum stay below 1 + eps, checked
in source order (min before max). -/
def checkRange (xs : List ℚ) : Except HDErr Unit :=
  match npMin xs with
  | none => .error .emptyValueError
  | some mn =>
      if mn > 0 - eps then
        match npMax xs with
        | none => .error .emptyValueError
        | some mx =>
            if mx < 1 + eps then .ok () else .error .precondition
      else .error .precondition

/-- Index of the histogram bin a sample falls in, given the tail of the
edge list (the left edge of the current bin has already been passed):
every bin is closed on the left and open on the right except the last,
which is closed on both sides; samples beyond the last edge fall in no
bin.  This is the binning rule of np.histogram for an explicit
monotonically increasing edge sequence. -/
def binIndexGo (x : ℚ) : ℕ → List ℚ → Option ℕ
  | _, [] => none
  | j, [hi] => if x ≤ hi then some j else none
  | j, hi :: e :: rest => if x < hi then some j else binIndexGo x (j + 1) (e :: rest)

/-- Bin index of a sample for an edge list; samples below the first edge
fall in no bin. -/
def binIndex (es : List ℚ) (x : ℚ) : Option ℕ :=
  match es with
  | [] => none
  | e0 :: rest => if x < e0 then none else binIndexGo x 0 rest

/-- np.histogram(xs, bins=es)[0]: the per-bin sample counts. -/
def histCounts (es : List ℚ) (xs : List ℚ) : List ℕ :=
  (List.range (es.length - 1)).map
    (fun j => xs.countP (fun x => decide (binIndex es x = some j)))

/-- The histogram counts divided by the total sample count arr.size. -/
def normHist (es : List ℚ) (xs : List ℚ) : List ℚ :=
  (histCounts es xs).map (fun c : ℕ => (c : ℚ) / (xs.length : ℚ))

/-- The default edge list [x / 10 for x in range(11)]. -/
def defaultBins : List ℚ :=
  (List.range 11).map (fun x => (x : ℚ) / 10)

/-- Resolution of the bins argument: if not bins (None or an empty
list), the default edges are substituted. -/
def resolveBins : Option (List ℚ) → List ℚ
  | none => defaultBins
  | some l => if l.isEmpty then defaultBins else l

/-- histogram_distance(arr1, arr2, bins=None): range asserts on both
inputs in source order, bins resolution, the two normalized histograms,
the asserts that each sums to 1 within eps, and finally the sum of the
squared elementwise differences. -/
def histogram_distance (arr1 arr2 : List ℚ) (bins : Option (List ℚ)) : Except HDErr ℚ :=
  match checkRange arr1 with
  | .error e => .error e
  | .ok _ =>
      match checkRange arr2 with
      | .error e => .error e
      | .ok _ =>
          let es := resolveBins bins
          let hist1 := normHist es arr1
          let hist2 := normHist es arr2
          if |hist1.sum - 1| < eps then
            if |hist2.sum - 1| < eps then
              .ok ((List.zipWith (fun u v => (u - v) ^ 2) hist1 hist2).sum)
            else .error .internalAssert
          else .error .internalAssert

/-! ### Energy -/

inductive EnergyErr where
  /-- cmd raised a KeyError reading a missing parameter. -/
  | keyError
  /-- A histogram_distance call failed. -/
  | hdErr (e : HDErr)
  deriving DecidableEq

/-- Sequential application of the parsed operation list to an image, the
for func in parse_operations(ops) loop. -/
def applyOps (ops : List (Image → Image)) (img : Image) : Image :=
  ops.foldl (fun a f => f a) img

/-- ColorEstimator.energy, parameterized by the external
rio_color.operations.parse_operations collaborator.  The method copies
the source buffer into a local working array, builds the descriptor,
applies the parsed operations to the working copy and scores the three
channels against the reference; the comprehension over range(3) is
unrolled.  It assigns no attribute, so the estimator component of the
result is the estimator unchanged. -/
def energy (parseOps : String → List (Image → Image)) (est : Estimator) :
    Estimator × Except EnergyErr ℚ :=
  match cmd est.state with
  | none => (est, .error .keyError)
  | some ops =>
      let arr := applyOps (parseOps ops) est.src
      match histogram_distance (est.ref.channel 0) (arr.channel 0) none with
      | .error e => (est, .error (.hdErr e))
      | .ok d0 =>
          match histogram_distance (est.ref.channel 1) (arr.channel 1) none with
          | .error e => (est, .error (.hdErr e))
          | .ok d1 =>
              match histogram_distance (est.ref.channel 2) (arr.channel 2) none with
              | .error e => (est, .error (.hdErr e))
              | .ok d2 => (est, .ok ([d0, d1, d2].sum * 100))

/-! ### Downsampling -/

/-- calc_downsample(w, h, target=400): an if and elif with no else, so
the value is optional; the elif condition h greater-or-equal w makes the
function total on rationals. -/
def calc_downsample (w h : ℚ) (target : ℚ) : Option ℚ :=
  if w > h then some (h / target)
  else if h ≥ w then some (w / target)
  else none

end OptimizeColor

/-! ## Helper lemmas -/

namespace OptimizeColor

/-- Energy never reassigns the estimator: every branch of the method
returns self unchanged as the state component. -/
theorem energy_fst (parseOps : String → List (Image → Image)) (est : Estimator) :
    (energy parseOps est).1 = est := by
  unfold energy
  split
  · rfl
  · dsimp only
    repeat' split
    all_goals rfl

/-- Shared evaluation of cmd on a state holding the four keys. -/
theorem cmd_eq_of_lookups {st : ParamState} {gr gg gb c : ℚ}
    (h1 : dictGet st "gamma_red" = some gr) (h2 : dictGet st "gamma_green" = some gg)
    (h3 : dictGet st "gamma_blue" = some gb) (h4 : dictGet st "contrast" = some c) :
    cmd st = some (specDescriptorString gr gg gb c) := by
  simp [cmd, h1, h2, h3, h4, specDescriptorString]

end OptimizeColor

/-! ## Claim theorems -/

namespace OptimizeColor

/-- C1: the claim says a ColorEstimator built with a supplied state holding all
four keys succeeds, and one missing a key fails with a value/validation error.
The code cannot satisfy the success half: the constructor calls self._validate,
which is not defined anywhere (the validator is named validate), so any
supplied non-empty state raises AttributeError; and even redirecting the call
to the validate logic of the class, validate never returns True (it returns
False on a missing key and falls through to None otherwise), so the truthiness
test fails and ValueError is raised although every key is present. -/
theorem c1_construction_with_complete_state_fails :
    init ⟨[], [], []⟩ ⟨[], [], []⟩ (some defaultParams) = .error .attributeError ∧
    initIntended ⟨[], [], []⟩ ⟨[], [], []⟩ (some defaultParams) = .error .valueError ∧
    validate defaultParams = none ∧
    (keys.all fun k => (dictGet defaultParams k).isSome) = true :=
  ⟨rfl, rfl, rfl, rfl⟩

/-- C3: on any state carrying the four required keys, cmd returns exactly the
descriptor string of the specification (gamma per channel at two decimal
digits, sigmoidal contrast at two decimal digits, midpoint fixed at 0.5), and
equal states give byte-identical descriptor strings. -/
theorem c3_cmd_descriptor_exact_and_deterministic (st : ParamState) (gr gg gb c : ℚ)
    (h1 : dictGet st "gamma_red" = some gr) (h2 : dictGet st "gamma_green" = some gg)
    (h3 : dictGet st "gamma_blue" = some gb) (h4 : dictGet st "contrast" = some c) :
    cmd st = some (specDescriptorString gr gg gb c) ∧
    ∀ st2 : ParamState, st2 = st → cmd st2 = cmd st :=
  ⟨cmd_eq_of_lookups h1 h2 h3 h4, fun _ hst => by rw [hst]⟩

/-- C3 witness: the default parameters format to the expected literal. -/
theorem c3_witness :
    cmd defaultParams = some "gamma r 1.00, gamma g 1.00, gamma b 1.00, sigmoidal rgb 10.00 0.5" := by
  have h := (c3_cmd_descriptor_exact_and_deterministic defaultParams 1 1 1 10 rfl rfl rfl rfl).1
  rw [h]
  norm_num [specDescriptorString, formatFixed2, round2, pad2]
  rfl

/-- C8: energy assigns no attribute: the estimator after a call, on any
parameter state and any behaviour of the operation parser, holds buffers equal
to the ones before the call (the transform runs on a working copy only). -/
theorem c8_energy_preserves_buffers :
    ∀ (parseOps : String → List (Image → Image)) (est : Estimator),
      (energy parseOps est).1.src = est.src ∧ (energy parseOps est).1.ref = est.ref := by
  intro parseOps est
  rw [energy_fst]
  exact ⟨rfl, rfl⟩

/-- C9 counterexample: at width 1000, height 100, target 400 the returned
ratio is 1/4 and dividing the dimensions by it yields a largest dimension of
4000, ten times the target rather than approximately equal to it. -/
theorem c9_largest_dimension_counterexample :
    calc_downsample 1000 100 400 = some (1 / 4) ∧
    max ((1000 : ℚ) / (1 / 4)) ((100 : ℚ) / (1 / 4)) = 4000 ∧
    (400 : ℚ) * 10 ≤ 4000 := by
  norm_num [calc_downsample, max_def]

/-- C9 amended: for positive dimensions and a positive target the ratio is
defined and dividing by it brings the smallest dimension exactly to the
target (the largest lands at target times the aspect ratio instead). -/
theorem c9_min_dimension_hits_target (w h target : ℚ)
    (hw : 0 < w) (hh : 0 < h) (ht : 0 < target) :
    ∃ r, calc_downsample w h target = some r ∧ min w h / r = target := by
  have hh' := hh.ne'
  have hw' := hw.ne'
  have ht' := ht.ne'
  rcases lt_or_le h w with hlt | hle
  · refine ⟨h / target, ?_, ?_⟩
    · simp [calc_downsample, hlt]
    · rw [min_eq_right hlt.le]
      field_simp
  · refine ⟨w / target, ?_, ?_⟩
    · simp [calc_downsample, not_lt.mpr hle, hle]
    · rw [min_eq_left hle]
      field_simp

/-- C9 witness: at 1000 by 100 with target 400 the smallest dimension divided
by the returned ratio is exactly 400. -/
theorem c9_witness :
    ∃ r, calc_downsample 1000 100 400 = some r ∧ min (1000 : ℚ) 100 / r = 400 :=
  c9_min_dimension_hits_target 1000 100 400 (by norm_num) (by norm_num) (by norm_num)

/-- C10: a bins argument of None or an empty list is falsy, so the default
11-edge binning 0.0, 0.1, ..., 1.0 is substituted; in particular the call with
an empty bin list equals the call with no bins at all, for every pair of
input arrays. -/
theorem c10_empty_bins_equals_default :
    (∀ a b : List ℚ, histogram_distance a b (some []) = histogram_distance a b none) ∧
    resolveBins (some []) = defaultBins ∧ resolveBins none = defaultBins ∧
    defaultBins = [0, 1/10, 2/10, 3/10, 4/10, 5/10, 6/10, 7/10, 8/10, 9/10, 1] := by
  refine ⟨fun a b => rfl, rfl, rfl, ?_⟩
  simp [defaultBins, List.range_succ]

end OptimizeColor

namespace OptimizeColor

/-- C4: on a state carrying exactly the four keys, one move call with key k
drawn from the four keys and multiplier m drawn from 0.9 or 1.1 rescales
exactly that key by m, leaves the other three keys unchanged, and the legacy
bias guard loop exits immediately with the drawn key (it never blocks or
alters the move), whatever re-draw stream and fuel it is given. -/
theorem c4_move_updates_single_key (a b c d : ℚ) (k : String) (m : ℚ)
    (stream : List String) (st : ParamState)
    (hst : st = [("gamma_red", a), ("gamma_green", b), ("gamma_blue", c), ("contrast", d)])
    (hk : k ∈ keys) (_hm : m = 9 / 10 ∨ m = 11 / 10) :
    ∃ v, dictGet st k = some v ∧
      move st k m stream = .ok (dictSet st k (v * m)) ∧
      dictGet (dictSet st k (v * m)) k = some (v * m) ∧
      (∀ k', k' ∈ keys → k' ≠ k → dictGet (dictSet st k (v * m)) k' = dictGet st k') ∧
      (∀ fuel, moveResolveKey st (fuel + 1) k stream = .ok k) := by
  clear _hm
  subst hst
  simp only [keys, List.mem_cons, List.not_mem_nil, or_false] at hk
  rcases hk with rfl | rfl | rfl | rfl <;>
    refine ⟨_, rfl, by simp [move, moveResolveKey, dictGet, dictSet], rfl, ?_,
      fun fuel => by simp [moveResolveKey]⟩ <;>
    · intro k' hk' hne
      simp only [keys, List.mem_cons, List.not_mem_nil, or_false] at hk'
      rcases hk' with rfl | rfl | rfl | rfl <;> simp_all [dictGet, dictSet]

/-- C4 witness: a concrete move on the default-valued state with key
contrast and multiplier 1.1. -/
theorem c4_witness :
    ∃ v, dictGet [("gamma_red", 1), ("gamma_green", 1), ("gamma_blue", 1), ("contrast", 10)]
        "contrast" = some v ∧
      move [("gamma_red", 1), ("gamma_green", 1), ("gamma_blue", 1), ("contrast", 10)]
        "contrast" (11 / 10) [] =
        .ok (dictSet [("gamma_red", 1), ("gamma_green", 1), ("gamma_blue", 1), ("contrast", 10)]
          "contrast" (v * (11 / 10))) ∧
      dictGet (dictSet [("gamma_red", 1), ("gamma_green", 1), ("gamma_blue", 1), ("contrast", 10)]
        "contrast" (v * (11 / 10))) "contrast" = some (v * (11 / 10)) ∧
      (∀ k', k' ∈ keys → k' ≠ "contrast" →
        dictGet (dictSet [("gamma_red", 1), ("gamma_green", 1), ("gamma_blue", 1), ("contrast", 10)]
          "contrast" (v * (11 / 10))) k' =
        dictGet [("gamma_red", 1), ("gamma_green", 1), ("gamma_blue", 1), ("contrast", 10)] k') ∧
      (∀ fuel, moveResolveKey
        [("gamma_red", 1), ("gamma_green", 1), ("gamma_blue", 1), ("contrast", 10)]
        (fuel + 1) "contrast" [] = .ok "contrast") :=
  c4_move_updates_single_key 1 1 1 10 "contrast" (11 / 10) [] _ rfl
    (by simp [keys]) (Or.inr rfl)

/-- C2: for a state carrying the four keys, energy returns 100 times the sum
over the three channels of the histogram distance between the reference
channel and the corresponding channel of the source after the parsed
operations were applied in sequence, for any behaviour of the parser. -/
theorem c2_energy_is_100_times_sum_of_channel_distances
    (parseOps : String → List (Image → Image)) (est : Estimator)
    (gr gg gb c d0 d1 d2 : ℚ)
    (h1 : dictGet est.state "gamma_red" = some gr)
    (h2 : dictGet est.state "gamma_green" = some gg)
    (h3 : dictGet est.state "gamma_blue" = some gb)
    (h4 : dictGet est.state "contrast" = some c)
    (hd0 : histogram_distance (est.ref.channel 0)
      ((applyOps (parseOps (specDescriptorString gr gg gb c)) est.src).channel 0) none = .ok d0)
    (hd1 : histogram_distance (est.ref.channel 1)
      ((applyOps (parseOps (specDescriptorString gr gg gb c)) est.src).channel 1) none = .ok d1)
    (hd2 : histogram_distance (est.ref.channel 2)
      ((applyOps (parseOps (specDescriptorString gr gg gb c)) est.src).channel 2) none = .ok d2) :
    (energy parseOps est).2 = .ok (100 * (d0 + d1 + d2)) := by
  have hc := cmd_eq_of_lookups h1 h2 h3 h4
  simp only [energy, hc, hd0, hd1, hd2, List.sum_cons, List.sum_nil]
  ring_nf

/-- C2 witness: with identity operations and equal single-sample buffers each
channel distance is 0 and the energy is 100 times their sum. -/
theorem c2_witness :
    (energy (fun _ => []) ⟨⟨[1/2], [1/2], [1/2]⟩, ⟨[1/2], [1/2], [1/2]⟩, defaultParams⟩).2
      = .ok (100 * (0 + 0 + 0)) := by
  have hhd : histogram_distance [(1:ℚ)/2] [(1:ℚ)/2] none = .ok 0 := by
    norm_num [histogram_distance, checkRange, npMin, npMax, eps, resolveBins, defaultBins,
      List.range_succ, normHist, histCounts, binIndex, binIndexGo, List.countP_cons, List.countP_nil]
  exact c2_energy_is_100_times_sum_of_channel_distances (fun _ => []) _ 1 1 1 10 0 0 0
    rfl rfl rfl rfl hhd hhd hhd

end OptimizeColor

namespace OptimizeColor

theorem foldl_min_mem (r : List ℚ) (a : ℚ) : r.foldl min a ∈ a :: r := by
  induction r generalizing a with
  | nil => simp
  | cons b t ih =>
    rw [List.foldl_cons]
    rcases List.mem_cons.mp (ih (min a b)) with h1 | h1
    · rcases min_choice a b with h2 | h2 <;> rw [h1, h2] <;> simp
    · exact List.mem_cons_of_mem _ (List.mem_cons_of_mem _ h1)

theorem foldl_max_mem (r : List ℚ) (a : ℚ) : r.foldl max a ∈ a :: r := by
  induction r generalizing a with
  | nil => simp
  | cons b t ih =>
    rw [List.foldl_cons]
    rcases List.mem_cons.mp (ih (max a b)) with h1 | h1
    · rcases max_choice a b with h2 | h2 <;> rw [h1, h2] <;> simp
    · exact List.mem_cons_of_mem _ (List.mem_cons_of_mem _ h1)

theorem foldl_min_le (r : List ℚ) (a : ℚ) : ∀ x ∈ a :: r, r.foldl min a ≤ x := by
  induction r generalizing a with
  | nil =>
    intro x hx
    simp only [List.mem_singleton] at hx
    simp [hx]
  | cons b t ih =>
    intro x hx
    rw [List.foldl_cons]
    have hhead : t.foldl min (min a b) ≤ min a b := ih (min a b) _ (List.mem_cons_self _ _)
    rcases List.mem_cons.mp hx with rfl | hx1
    · exact hhead.trans (min_le_left _ _)
    · rcases List.mem_cons.mp hx1 with rfl | hx2
      · exact hhead.trans (min_le_right _ _)
      · exact ih (min a b) _ (List.mem_cons_of_mem _ hx2)

theorem foldl_max_ge (r : List ℚ) (a : ℚ) : ∀ x ∈ a :: r, x ≤ r.foldl max a := by
  induction r generalizing a with
  | nil =>
    intro x hx
    simp only [List.mem_singleton] at hx
    simp [hx]
  | cons b t ih =>
    intro x hx
    rw [List.foldl_cons]
    have hhead : max a b ≤ t.foldl max (max a b) := ih (max a b) _ (List.mem_cons_self _ _)
    rcases List.mem_cons.mp hx with rfl | hx1
    · exact (le_max_left _ _).trans hhead
    · rcases List.mem_cons.mp hx1 with rfl | hx2
      · exact (le_max_right _ _).trans hhead
      · exact ih (max a b) _ (List.mem_cons_of_mem _ hx2)

theorem checkRange_cons_cases (x : ℚ) (r : List ℚ) :
    checkRange (x :: r) = .ok () ∨ checkRange (x :: r) = .error .precondition := by
  simp only [checkRange, npMin, npMax]
  split_ifs <;> simp

theorem checkRange_ok_iff (x : ℚ) (r : List ℚ) :
    checkRange (x :: r) = .ok () ↔ ∀ y ∈ x :: r, 0 - eps < y ∧ y < 1 + eps := by
  constructor
  · intro h y hy
    simp only [checkRange, npMin, npMax] at h
    split_ifs at h with h1 h2
    · exact ⟨h1.trans_le (foldl_min_le r x y hy), (foldl_max_ge r x y hy).trans_lt h2⟩
  · intro h
    have h1 := (h _ (foldl_min_mem r x)).1
    have h2 := (h _ (foldl_max_mem r x)).2
    simp only [checkRange, npMin, npMax]
    rw [if_pos h1, if_pos h2]

theorem checkRange_precond_iff (x : ℚ) (r : List ℚ) :
    checkRange (x :: r) = .error .precondition ↔
      ∃ y ∈ x :: r, y ≤ 0 - eps ∨ 1 + eps ≤ y := by
  constructor
  · intro h
    by_contra hno
    push_neg at hno
    have hok : checkRange (x :: r) = .ok () := (checkRange_ok_iff x r).mpr hno
    rw [hok] at h
    exact Except.noConfusion h
  · intro ⟨y, hy, hbad⟩
    rcases checkRange_cons_cases x r with hok | herr
    · exfalso
      have := (checkRange_ok_iff x r).mp hok y hy
      rcases hbad with h1 | h1
      · exact absurd this.1 (not_lt.mpr h1)
      · exact absurd this.2 (not_lt.mpr h1)
    · exact herr

end OptimizeColor

namespace OptimizeColor

/-- C5: for non-empty inputs, histogram_distance raises the precondition
assertion exactly when one of the arrays holds a sample at or beyond the
tolerance bounds (at most 0 - eps or at least 1 + eps).  In particular a
sample strictly outside always raises, and arrays strictly inside the open
interval never raise the precondition error.  The claim as written, with
closed bounds, fails only at the two boundary values. -/
theorem c5_precondition_error_iff (arr1 arr2 : List ℚ) (bins : Option (List ℚ))
    (h1 : arr1 ≠ []) (h2 : arr2 ≠ []) :
    histogram_distance arr1 arr2 bins = .error .precondition ↔
      (∃ y ∈ arr1, y ≤ 0 - eps ∨ 1 + eps ≤ y) ∨ (∃ y ∈ arr2, y ≤ 0 - eps ∨ 1 + eps ≤ y) := by
  obtain ⟨x1, r1, rfl⟩ := List.exists_cons_of_ne_nil h1
  obtain ⟨x2, r2, rfl⟩ := List.exists_cons_of_ne_nil h2
  rcases checkRange_cons_cases x1 r1 with hc1 | hc1
  · rcases checkRange_cons_cases x2 r2 with hc2 | hc2
    · have hno1 : ¬ ∃ y ∈ x1 :: r1, y ≤ 0 - eps ∨ 1 + eps ≤ y := by
        rw [← checkRange_precond_iff]
        simp [hc1]
      have hno2 : ¬ ∃ y ∈ x2 :: r2, y ≤ 0 - eps ∨ 1 + eps ≤ y := by
        rw [← checkRange_precond_iff]
        simp [hc2]
      have hne : histogram_distance (x1 :: r1) (x2 :: r2) bins ≠ .error .precondition := by
        simp only [histogram_distance, hc1, hc2]
        split_ifs <;> simp
      exact iff_of_false hne (not_or.mpr ⟨hno1, hno2⟩)
    · have hl : histogram_distance (x1 :: r1) (x2 :: r2) bins = .error .precondition := by
        simp only [histogram_distance, hc1, hc2]
      exact iff_of_true hl (Or.inr ((checkRange_precond_iff x2 r2).mp hc2))
  · have hl : histogram_distance (x1 :: r1) (x2 :: r2) bins = .error .precondition := by
      simp only [histogram_distance, hc1]
    exact iff_of_true hl (Or.inl ((checkRange_precond_iff x1 r1).mp hc1))

/-- C5 witness: the value 2 exceeds 1 + eps, so the call raises the
precondition error. -/
theorem c5_witness :
    histogram_distance [2] [1/2] none = .error .precondition := by
  rw [c5_precondition_error_iff [2] [1/2] none (by simp) (by simp)]
  exact Or.inl ⟨2, by simp, Or.inr (by norm_num [eps])⟩

/-- C5 counterexample: the sample 1 + eps is neither greater than 1 + eps
nor less than 0 - eps, and lies inside the tolerance-widened interval, yet
histogram_distance raises the precondition assertion because the source
compares with strict inequality (assert arr1.max() less than 1 + eps). -/
theorem c5_boundary_counterexample :
    histogram_distance [1 + eps] [1/2] none = .error .precondition ∧
    ¬ ((1 : ℚ) + eps > 1 + eps) ∧ ¬ ((1 : ℚ) + eps < 0 - eps) ∧
    0 - eps ≤ 1 + eps ∧ (1 : ℚ) + eps ≤ 1 + eps := by
  refine ⟨?_, by norm_num, by norm_num [eps], by norm_num [eps], le_refl _⟩
  norm_num [histogram_distance, checkRange, npMin, npMax, eps]

end OptimizeColor

namespace OptimizeColor

theorem binIndexGo_lt (x : ℚ) :
    ∀ (l : List ℚ) (j i : ℕ), binIndexGo x j l = some i → i < j + l.length := by
  intro l
  induction l with
  | nil => intro j i h; simp [binIndexGo] at h
  | cons hi t ih =>
    intro j i h
    cases t with
    | nil =>
      simp only [binIndexGo] at h
      split_ifs at h
      · cases h
        simp
    | cons e rest =>
      simp only [binIndexGo] at h
      split_ifs at h
      · cases h
        simp
      · have := ih (j + 1) i h
        simp only [List.length_cons] at this ⊢
        omega

theorem binIndexGo_isSome (x : ℚ) :
    ∀ (l : List ℚ) (j : ℕ) (z : ℚ), l.getLast? = some z → x ≤ z →
      (binIndexGo x j l).isSome := by
  intro l
  induction l with
  | nil => intro j z hz; simp at hz
  | cons hi t ih =>
    intro j z hz hxz
    cases t with
    | nil =>
      simp only [List.getLast?_singleton, Option.some.injEq] at hz
      subst hz
      simp [binIndexGo, hxz]
    | cons e rest =>
      rw [List.getLast?_cons_cons] at hz
      simp only [binIndexGo]
      split_ifs
      · simp
      · exact ih (j + 1) z hz hxz

theorem binIndex_lt (es : List ℚ) (x : ℚ) (i : ℕ) (h : binIndex es x = some i) :
    i < es.length - 1 := by
  cases es with
  | nil => simp [binIndex] at h
  | cons e0 rest =>
    simp only [binIndex] at h
    split_ifs at h
    have := binIndexGo_lt x rest 0 i h
    simpa using this

theorem binIndex_defaultBins_isSome (x : ℚ) (h0 : 0 ≤ x) (h1 : x ≤ 1) :
    (binIndex defaultBins x).isSome := by
  have hd : defaultBins = [0, 1/10, 2/10, 3/10, 4/10, 5/10, 6/10, 7/10, 8/10, 9/10, 1] := by
    simp [defaultBins, List.range_succ]
  rw [hd]
  simp only [binIndex]
  rw [if_neg (not_lt.mpr h0)]
  exact binIndexGo_isSome x _ 0 1 (by norm_num) h1

theorem sum_map_ind_zero (j₀ : ℕ) :
    ∀ n : ℕ, n ≤ j₀ → ((List.range n).map (fun j => if j₀ = j then (1:ℕ) else 0)).sum = 0 := by
  intro n
  induction n with
  | zero => simp
  | succ m ih =>
    intro hle
    rw [List.range_succ, List.map_append, List.sum_append]
    rw [ih (by omega)]
    simp
    omega

theorem sum_map_ind_one (j₀ : ℕ) :
    ∀ n : ℕ, j₀ < n → ((List.range n).map (fun j => if j₀ = j then (1:ℕ) else 0)).sum = 1 := by
  intro n
  induction n with
  | zero => omega
  | succ m ih =>
    intro hlt
    rw [List.range_succ, List.map_append, List.sum_append]
    rcases Nat.lt_or_ge j₀ m with hm | hm
    · rw [ih hm]
      simp
      omega
    · have : j₀ = m := by omega
      subst this
      rw [sum_map_ind_zero j₀ j₀ le_rfl]
      simp

end OptimizeColor

namespace OptimizeColor

theorem histCounts_sum (es : List ℚ) (xs : List ℚ)
    (hcov : ∀ x ∈ xs, (binIndex es x).isSome) :
    (histCounts es xs).sum = xs.length := by
  induction xs with
  | nil => simp [histCounts]
  | cons x t ih =>
    have hx := hcov x (List.mem_cons_self x t)
    obtain ⟨j₀, hj₀⟩ := Option.isSome_iff_exists.mp hx
    have hj₀n : j₀ < es.length - 1 := binIndex_lt es x j₀ hj₀
    have iht := ih (fun y hy => hcov y (List.mem_cons_of_mem x hy))
    simp only [histCounts, List.countP_cons] at iht ⊢
    rw [List.sum_map_add, iht]
    have : ((List.range (es.length - 1)).map
        (fun j => if decide (binIndex es x = some j) = true then (1:ℕ) else 0)).sum = 1 := by
      simp only [hj₀, Option.some.injEq, decide_eq_true_eq]
      exact sum_map_ind_one j₀ (es.length - 1) hj₀n
    rw [this]
    simp [List.length_cons]

theorem sum_map_div (l : List ℕ) (d : ℚ) :
    (l.map (fun cnt : ℕ => (cnt : ℚ) / d)).sum = ((l.sum : ℕ) : ℚ) / d := by
  induction l with
  | nil => simp
  | cons a t ih =>
    simp only [List.map_cons, List.sum_cons, ih, Nat.cast_add, add_div]

theorem normHist_sum (es : List ℚ) (xs : List ℚ) (hne : xs ≠ [])
    (hcov : ∀ x ∈ xs, (binIndex es x).isSome) :
    (normHist es xs).sum = 1 := by
  unfold normHist
  rw [sum_map_div, histCounts_sum es xs hcov]
  have hpos : 0 < xs.length := List.length_pos.mpr hne
  exact div_self (by exact_mod_cast hpos.ne')

theorem checkRange_ok_of_unit (xs : List ℚ) (hne : xs ≠ [])
    (hin : ∀ y ∈ xs, 0 ≤ y ∧ y ≤ 1) : checkRange xs = .ok () := by
  obtain ⟨x, r, rfl⟩ := List.exists_cons_of_ne_nil hne
  rw [checkRange_ok_iff]
  intro y hy
  have h := hin y hy
  constructor
  · calc (0:ℚ) - eps < 0 := by norm_num [eps]
      _ ≤ y := h.1
  · calc y ≤ 1 := h.2
      _ < 1 + eps := by norm_num [eps]

/-- C6 amended: for non-empty inputs all of whose samples lie in the closed
unit interval, each normalized default-bin histogram sums to exactly 1, the
two internal assertions pass, and the function returns the sum over bins of
the squared differences of the two normalized histograms. -/
theorem c6_internal_checks_hold_on_unit_interval (arr1 arr2 : List ℚ)
    (h1 : arr1 ≠ []) (h2 : arr2 ≠ [])
    (hin : ∀ y, (y ∈ arr1 ∨ y ∈ arr2) → 0 ≤ y ∧ y ≤ 1) :
    (normHist defaultBins arr1).sum = 1 ∧ (normHist defaultBins arr2).sum = 1 ∧
    histogram_distance arr1 arr2 none =
      .ok ((List.zipWith (fun u v => (u - v) ^ 2)
        (normHist defaultBins arr1) (normHist defaultBins arr2)).sum) := by
  have hcov1 : ∀ x ∈ arr1, (binIndex defaultBins x).isSome := fun x hx =>
    binIndex_defaultBins_isSome x (hin x (Or.inl hx)).1 (hin x (Or.inl hx)).2
  have hcov2 : ∀ x ∈ arr2, (binIndex defaultBins x).isSome := fun x hx =>
    binIndex_defaultBins_isSome x (hin x (Or.inr hx)).1 (hin x (Or.inr hx)).2
  have hs1 := normHist_sum defaultBins arr1 h1 hcov1
  have hs2 := normHist_sum defaultBins arr2 h2 hcov2
  have hc1 := checkRange_ok_of_unit arr1 h1 (fun y hy => hin y (Or.inl hy))
  have hc2 := checkRange_ok_of_unit arr2 h2 (fun y hy => hin y (Or.inr hy))
  refine ⟨hs1, hs2, ?_⟩
  simp only [histogram_distance, hc1, hc2, resolveBins, hs1, hs2]
  norm_num [eps]

end OptimizeColor

namespace OptimizeColor

/-- C6 witness: singleton arrays 0 and 1 pass all internal checks. -/
theorem c6_witness :
    (normHist defaultBins [0]).sum = 1 ∧ (normHist defaultBins [1]).sum = 1 ∧
    histogram_distance [0] [1] none =
      .ok ((List.zipWith (fun u v => (u - v) ^ 2)
        (normHist defaultBins [0]) (normHist defaultBins [1])).sum) := by
  refine c6_internal_checks_hold_on_unit_interval [0] [1] (by simp) (by simp) ?_
  intro y hy
  rcases hy with hy | hy <;> simp only [List.mem_singleton] at hy <;> subst hy <;> norm_num

/-- C6 counterexample: the sample -1e-7 satisfies the precondition (it lies
strictly within the tolerance-widened bounds) but falls below every default
bin edge, so its normalized histogram sums to 0 and the internal consistency
assertion fails, refuting the claim that the precondition suffices. -/
theorem c6_precondition_not_sufficient_counterexample :
    ((0:ℚ) - eps < -(1/10000000) ∧ (-(1/10000000) : ℚ) < 1 + eps) ∧
    histogram_distance [-(1/10000000)] [1/2] none = .error .internalAssert := by
  constructor
  · constructor <;> norm_num [eps]
  · norm_num [histogram_distance, checkRange, npMin, npMax, eps, resolveBins, defaultBins,
      List.range_succ, normHist, histCounts, binIndex, binIndexGo, List.countP_cons,
      List.countP_nil]

theorem countP_replicate (p : ℚ → Bool) (n : ℕ) (a : ℚ) :
    (List.replicate n a).countP p = if p a then n else 0 := by
  induction n with
  | zero => simp
  | succ m ih =>
    rw [List.replicate_succ, List.countP_cons, ih]
    cases h : p a <;> simp [h]

theorem foldl_min_replicate (n : ℕ) (a : ℚ) : (List.replicate n a).foldl min a = a := by
  induction n with
  | zero => rfl
  | succ m ih => rw [List.replicate_succ, List.foldl_cons, min_self]; exact ih

theorem foldl_max_replicate (n : ℕ) (a : ℚ) : (List.replicate n a).foldl max a = a := by
  induction n with
  | zero => rfl
  | succ m ih => rw [List.replicate_succ, List.foldl_cons, max_self]; exact ih

/-- C7: for every sample count of at least one, the histogram distance of
all-zeros against all-ones under the bins 0, 0.5, 1 is exactly 2: the zeros
fill the first bin, the ones fall in the right-closed second bin, and the
squared differences of the normalized histograms sum to 1 + 1. -/
theorem c7_zeros_vs_ones_distance_two (N : ℕ) (hN : 1 ≤ N) :
    histogram_distance (List.replicate N 0) (List.replicate N 1) (some [0, 1/2, 1]) = .ok 2 := by
  obtain ⟨n, rfl⟩ : ∃ n, N = n + 1 := ⟨N - 1, by omega⟩
  have hmin0 : npMin (List.replicate (n + 1) (0:ℚ)) = some 0 := by
    rw [List.replicate_succ]
    simp [npMin, foldl_min_replicate]
  have hmax0 : npMax (List.replicate (n + 1) (0:ℚ)) = some 0 := by
    rw [List.replicate_succ]
    simp [npMax, foldl_max_replicate]
  have hmin1 : npMin (List.replicate (n + 1) (1:ℚ)) = some 1 := by
    rw [List.replicate_succ]
    simp [npMin, foldl_min_replicate]
  have hmax1 : npMax (List.replicate (n + 1) (1:ℚ)) = some 1 := by
    rw [List.replicate_succ]
    simp [npMax, foldl_max_replicate]
  have hc0 : checkRange (List.replicate (n + 1) (0:ℚ)) = .ok () := by
    simp only [checkRange, hmin0, hmax0]
    norm_num [eps]
  have hc1 : checkRange (List.replicate (n + 1) (1:ℚ)) = .ok () := by
    simp only [checkRange, hmin1, hmax1]
    norm_num [eps]
  have hb0 : binIndex [0, 1/2, 1] (0:ℚ) = some 0 := by norm_num [binIndex, binIndexGo]
  have hb1 : binIndex [0, 1/2, 1] (1:ℚ) = some 1 := by norm_num [binIndex, binIndexGo]
  have hcount0 : histCounts [0, 1/2, 1] (List.replicate (n + 1) (0:ℚ)) = [n + 1, 0] := by
    simp only [histCounts, List.length_cons, List.length_nil, List.range_succ, List.range_zero,
      List.nil_append, List.map_cons, List.map_nil, List.map_append, countP_replicate, hb0]
    simp
  have hcount1 : histCounts [0, 1/2, 1] (List.replicate (n + 1) (1:ℚ)) = [0, n + 1] := by
    simp only [histCounts, List.length_cons, List.length_nil, List.range_succ, List.range_zero,
      List.nil_append, List.map_cons, List.map_nil, List.map_append, countP_replicate, hb1]
    simp
  have hnz : ((n:ℚ) + 1) ≠ 0 := by positivity
  have hh0 : normHist [0, 1/2, 1] (List.replicate (n + 1) (0:ℚ)) = [1, 0] := by
    simp only [normHist, hcount0, List.length_replicate, List.map_cons, List.map_nil]
    push_cast
    rw [div_self hnz]
    norm_num
  have hh1 : normHist [0, 1/2, 1] (List.replicate (n + 1) (1:ℚ)) = [0, 1] := by
    simp only [normHist, hcount1, List.length_replicate, List.map_cons, List.map_nil]
    push_cast
    rw [div_self hnz]
    norm_num
  simp only [histogram_distance, hc0, hc1, resolveBins, List.isEmpty_cons,
    Bool.false_eq_true, if_false]
  rw [hh0, hh1]
  norm_num [eps]

/-- C7 witness: the distance at sample count 3. -/
theorem c7_witness :
    histogram_distance (List.replicate 3 0) (List.replicate 3 1) (some [0, 1/2, 1]) = .ok 2 :=
  c7_zeros_vs_ones_distance_two 3 (by norm_num)

end OptimizeColor
